import Mathlib

/-!
# Verification of the Amass core coordination substrate

A shallow embedding, in Lean 4, of the Amass core: the `EventBus`
publish/subscribe dispatcher, and the `NameService` subdomain-discovery
pipeline (`newNameEvent`, `performRequest`, `checkSubdomain`, and the
per-subdomain observation counter loop `processTimesRequests`).

Go strings are Lean `String`s; Go maps become association lists with
explicit lookup/update functions; goroutine-owned mutable state becomes
explicit state passing; the `chan`-based counter loop becomes a fold over
the queue of requests; `close` of a Go channel becomes an `Except` value
(a second close panics).  Functions are translated from the source files;
the handful of small `amass/utils` helpers whose source is not part of
this tree are modelled from the specification and marked as such in their
doc comments.
-/

namespace Amass

/-! ## String helpers (Go `strings` package behaviour) -/

/-- Splits a character list at `'.'`, accumulating the current label (in
reverse).  Mirrors Go `strings.Split(s, ".")` which returns `[""]` on the
empty string and keeps empty labels. -/
def splitDotsAux : List Char → List Char → List String
  | [], acc => [String.mk acc.reverse]
  | c :: rest, acc =>
      if c = '.' then String.mk acc.reverse :: splitDotsAux rest []
      else splitDotsAux rest (c :: acc)

/-- Go `strings.Split(s, ".")`. -/
def splitDots (s : String) : List String := splitDotsAux s.data []

/-- Go `strings.Join(labels, ".")`. -/
def joinDots : List String → String
  | [] => ""
  | [s] => s
  | s :: rest => s ++ "." ++ joinDots rest

/-- Go `strings.ToLower` on the ASCII range (all names handled by the
pipeline are ASCII DNS names). -/
def goToLower (s : String) : String := String.mk (s.data.map Char.toLower)

/-- Boolean membership of a string in a list (Go map key-presence test). -/
def memB (s : String) : List String → Bool
  | [] => false
  | x :: rest => (x = s) || memB s rest

theorem memB_iff {s : String} {l : List String} : memB s l = true ↔ s ∈ l := by
  induction l with
  | nil => simp [memB]
  | cons x rest ih =>
      simp only [memB, Bool.or_eq_true, decide_eq_true_eq, ih, List.mem_cons]
      constructor
      · rintro (h | h)
        · exact Or.inl h.symm
        · exact Or.inr h
      · rintro (h | h)
        · exact Or.inl h.symm
        · exact Or.inr h

/-! ## Request model (`core` package) -/

/-- `core.DNSAnswer`: a DNS record. -/
structure DNSAnswer where
  name : String
  type : Int
  ttl : Int
  data : String
deriving DecidableEq, Repr

/-- `core.DNSRequest`: data carried through Service processing of a DNS
name. -/
structure DNSRequest where
  Name : String
  Domain : String
  Records : List DNSAnswer
  Tag : String
  Source : String
deriving DecidableEq, Repr

/-- `core.AddressInfo`: network addressing info for the `Output` type.
`net.IP` and `*net.IPNet` are modelled as strings (an absent netblock is
`none`). -/
structure AddressInfo where
  Address : String
  Netblock : Option String
  CIDRStr : String
  ASN : Int
  Description : String
deriving DecidableEq, Repr

/-- `core.Output`: the externally visible discovery record.  `time.Time`
is modelled as a `Nat` of nanoseconds; the Go zero value of `time.Time`
is `0`. -/
structure Output where
  Timestamp : Nat
  Name : String
  Domain : String
  Addresses : List AddressInfo
  Tag : String
  Source : String
deriving DecidableEq, Repr

/-! Request tag constants and pub/sub topic constants from `core`. -/

def ALT : String := "alt"
def ARCHIVE : String := "archive"
def API : String := "api"
def AXFR : String := "axfr"
def BRUTE : String := "brute"
def CERT : String := "cert"
def DNS : String := "dns"
def EXTERNAL : String := "ext"
def SCRAPE : String := "scrape"

def NewNameTopic : String := "amass:newname"
def NewSubdomainTopic : String := "amass:newsub"
def ResolveNameTopic : String := "amass:resolve"
def NameResolvedTopic : String := "amass:resolved"
def OutputTopic : String := "amass:output"

/-! ## EventBus (`core` package)

Subscriber callbacks are Go `reflect.Value`s: their identity is what
matters to the bus, so a callback value is a `Nat` identifier, and the
`interface\x7b\x7d` argument of `Subscribe` is a `GoValue` recording
whether the underlying Go value's reflection kind is `Func`, or whether
it is the nil interface value (on which reflection panics).  The callback
arguments of a publish are likewise identities (`List Nat`).  The
`topics` Go map becomes an association list, the `utils.Queue` a list,
and the `done` channel a `doneClosed` flag. -/

/-- A Go value passed where `interface\x7b\x7d` is expected: a function
value (invocable), some non-function value, or the nil interface
value. -/
inductive GoValue where
  | func (id : Nat)
  | nonFunc (id : Nat)
  | nilValue
deriving DecidableEq, Repr


/-- `core.pubReq`: a queued publish request. -/
structure PubReq where
  Topic : String
  Args : List Nat
deriving DecidableEq, Repr

/-- `core.EventBus` state: the `topics` map, the publish queue, and
whether the `done` channel has been closed. -/
structure EventBus where
  topics : List (String × List Nat)
  queue : List PubReq
  doneClosed : Bool
deriving DecidableEq, Repr

/-- Go map read `eb.topics[t]` together with its `found` flag. -/
def lookupTopic : List (String × List Nat) → String → Option (List Nat)
  | [], _ => none
  | (t', cbs) :: rest, t => if t' = t then some cbs else lookupTopic rest t

/-- Go `eb.topics[topic] = append(eb.topics[topic], callback)`. -/
def insertCb : List (String × List Nat) → String → Nat → List (String × List Nat)
  | [], t, k => [(t, [k])]
  | (t', cbs) :: rest, t, k =>
      if t' = t then (t', cbs ++ [k]) :: rest
      else (t', cbs) :: insertCb rest t k

/-- `NewEventBus`: fresh topics map, empty queue, `done` open. -/
def NewEventBus : EventBus := ⟨[], [], false⟩

/-- `EventBus.Subscribe`: the guard is
`topic == "" || reflect.TypeOf(fn).Kind() != reflect.Func`, so an empty
topic short-circuits before `fn` is reflected on.  Otherwise, for a nil
callback `reflect.TypeOf` returns a nil `reflect.Type` and the `Kind()`
method call on that nil interface panics (there is no nil guard in the
source), modelled as the error case; a non-function callback returns
silently; a function callback is appended to the topic's subscriber
list. -/
def Subscribe (eb : EventBus) (topic : String) (fn : GoValue) :
    Except String EventBus :=
  if topic = "" then .ok eb
  else
    match fn with
    | .nilValue => .error "invalid memory address or nil pointer dereference"
    | .nonFunc _ => .ok eb
    | .func k => .ok ⟨insertCb eb.topics topic k, eb.queue, eb.doneClosed⟩

/-- `EventBus.Publish`: enqueues a `pubReq`; silently returns if the
topic is empty. -/
def Publish (eb : EventBus) (topic : String) (args : List Nat) : EventBus :=
  if topic = "" then eb
  else ⟨eb.topics, eb.queue ++ [⟨topic, args⟩], eb.doneClosed⟩

/-- The subscriber list snapshotted by the dispatch loop for a topic
(`callbacks, found := eb.topics[p.Topic]`, with `found = false` giving
the empty snapshot). -/
def subscribersAt (topics : List (String × List Nat)) (t : String) : List Nat :=
  (lookupTopic topics t).getD []

/-- The callback invocations performed for one dequeued `pubReq`:
`processRequests` snapshots the subscriber list and, when the topic was
found, `executeCallbacks` calls every snapshotted callback once, in
order, with the request's argument list. -/
def dispatchPub (topics : List (String × List Nat)) (p : PubReq) :
    List (Nat × List Nat) :=
  match lookupTopic topics p.Topic with
  | none => []
  | some cbs => cbs.map (fun cb => (cb, p.Args))

/-- One check of the `select` at the top of the dispatch loop: with the
`done` channel closed, the receive is ready and the loop returns. -/
def busLoopReturns (eb : EventBus) : Bool := eb.doneClosed

/-- `EventBus.Stop` runs `close(eb.done)`: Go panics on closing an
already-closed channel, modelled as an `Except` error. -/
def Stop (eb : EventBus) : Except String EventBus :=
  if eb.doneClosed then .error "close of closed channel"
  else .ok ⟨eb.topics, eb.queue, true⟩

/-! ## `amass/utils` helpers used by NameService

The bodies of these three helpers live in the `amass/utils` package,
whose source files are not part of this tree; they are modelled from the
specification. -/

/-- Modelled from the spec: `utils.StringFilter` is "an
insertion-order-agnostic deduplication set over strings (seen/not-seen,
with a `Duplicate(x)` test-and-insert operation)"; it "grows
monotonically for the lifetime of the owning service". -/
structure StringFilter where
  elems : List String
deriving DecidableEq, Repr

/-- Modelled from the spec: `Duplicate(s)` is test-and-insert — it
reports whether `s` was already seen and records it as seen. -/
def StringFilter.Duplicate (f : StringFilter) (s : String) :
    Bool × StringFilter :=
  (memB s f.elems, ⟨s :: f.elems⟩)

/-- `utils.NewStringFilter`. -/
def NewStringFilter : StringFilter := ⟨[]⟩

/-- Modelled from the spec: `utils.RemoveAsteriskLabel` "strips a
leading wildcard label" from a DNS name. -/
def RemoveAsteriskLabel (s : String) : String :=
  match splitDots s with
  | "*" :: l :: rest => joinDots (l :: rest)
  | _ => s

/-- Modelled from the spec: `TrustedTag` selects the "trusted"
provenance tags — "a provenance class considered high-confidence enough
to bypass the general dedup filter and use a separate one (e.g.,
certificate extraction, zone transfer)". -/
def TrustedTag (tag : String) : Bool := (tag = CERT) || (tag = AXFR)

/-! ## NameService (`amass` package)

The two dedup filters, the output filter, and the observation-counter
map are the NameService's mutable state; each is threaded explicitly.
`Bus().Publish` calls become elements of a returned publication list,
and `SendDNSRequest` (forwarding into the service's own inbox) becomes a
returned flag. -/

/-- The filter state of a `NameService`. -/
structure NameServiceState where
  filter : StringFilter
  trustedNameFilter : StringFilter
  otherNameFilter : StringFilter
deriving DecidableEq, Repr

/-- `NewNameService` filter state: all filters empty. -/
def NewNameServiceState : NameServiceState :=
  ⟨NewStringFilter, NewStringFilter, NewStringFilter⟩

/-- The name stored in / checked against the dedup filters by
`newNameEvent`: `strings.ToLower(utils.RemoveAsteriskLabel(req.Name))`. -/
def normName (req : DNSRequest) : String := goToLower (RemoveAsteriskLabel req.Name)

/-- `NameService.newNameEvent`.  The Go callback receives
`req *core.DNSRequest` and mutates the pointed-to struct (lowercasing
and wildcard-stripping `Name`, lowercasing `Domain`) before the dedup
test; the result is the new filter state, the request struct as the
caller's pointer sees it after the call, and whether the request was
forwarded via `SendDNSRequest`.  A nil pointer is the `none` case. -/
def newNameEvent (ns : NameServiceState) (req : Option DNSRequest) :
    NameServiceState × Option DNSRequest × Bool :=
  match req with
  | none => (ns, none, false)
  | some r =>
      if r.Name = "" ∨ r.Domain = "" then (ns, some r, false)
      else
        let r' : DNSRequest := ⟨normName r, goToLower r.Domain, r.Records, r.Tag, r.Source⟩
        let tt := TrustedTag r'.Tag
        if tt = false then
          let dup := (ns.otherNameFilter.Duplicate r'.Name).1
          let f' := (ns.otherNameFilter.Duplicate r'.Name).2
          (⟨ns.filter, ns.trustedNameFilter, f'⟩, some r', !dup)
        else
          let dup := (ns.trustedNameFilter.Duplicate r'.Name).1
          let f' := (ns.trustedNameFilter.Duplicate r'.Name).2
          (⟨ns.filter, f', ns.otherNameFilter⟩, some r', !dup)

/-- Runs `newNameEvent` over a sequence of incoming requests, returning
the forwarded-or-dropped flag of each. -/
def runNewNames (ns : NameServiceState) : List DNSRequest → List Bool
  | [] => []
  | r :: rest =>
      (newNameEvent ns (some r)).2.2 :: runNewNames (newNameEvent ns (some r)).1 rest

/-- A payload published on the bus by `performRequest`. -/
inductive BusMsg where
  | out (o : Output)
  | dns (r : DNSRequest)
deriving DecidableEq, Repr

/-- `NameService.performRequest`.  `passive` is `ns.Config().Passive`;
`sanity` is `ns.sanityRE.MatchString` (the `utils.AnySubdomainRegex()`
syntax check, kept abstract); `filter` is the global output filter
`ns.filter`.  Returns the filter after the call and the list of
`(topic, payload)` pairs published.  `SetActive` only touches the
liveness timestamp and is not part of this state. -/
def performRequest (passive : Bool) (sanity : String → Bool)
    (filter : StringFilter) (req : DNSRequest) :
    StringFilter × List (String × BusMsg) :=
  if passive then
    let dup := (filter.Duplicate req.Name).1
    let f' := (filter.Duplicate req.Name).2
    if !dup && sanity req.Name then
      (f', [(OutputTopic, .out ⟨0, req.Name, req.Domain, [], req.Tag, req.Source⟩)])
    else (f', [])
  else (filter, [(ResolveNameTopic, .dns req)])

/-- `NameService.checkSubdomain`.  `graph` is the registered
`handlers.DataHandler` (`none` when `RegisterGraph` was never called);
when present it is the `IsCNAMENode` query on `(sub, req.Domain)`.
Returns the `DNSRequest` published on the new-subdomain topic (if any) —
the publish also carries `timesForSubdomain sub`, modelled separately by
`processTimesRun` — and whether an alias (CNAME) query was made. -/
def checkSubdomain (graph : Option (String → String → Bool))
    (req : DNSRequest) : Option DNSRequest × Bool :=
  let labels := splitDots req.Name
  let num := labels.length
  if num < 2 then (none, false)
  else if num - 1 < (splitDots req.Domain).length then (none, false)
  else if labels.getD 1 "" = "_tcp" ∨ labels.getD 1 "" = "_udp" ∨
      labels.getD 1 "" = "_tls" then (none, false)
  else
    let sub := joinDots (labels.drop 1)
    match graph with
    | some isCNAMENode =>
        if isCNAMENode sub req.Domain then (none, true)
        else (some ⟨sub, req.Domain, [], req.Tag, req.Source⟩, true)
    | none => (some ⟨sub, req.Domain, [], req.Tag, req.Source⟩, false)

/-! ## Observation counter (`processTimesRequests`) -/

/-- Lookup in the `subdomains` Go map. -/
def lookupTimes : List (String × Nat) → String → Option Nat
  | [], _ => none
  | (k, v) :: rest, s => if k = s then some v else lookupTimes rest s

/-- Store `subdomains[s] = t` in the Go map. -/
def updateTimes : List (String × Nat) → String → Nat → List (String × Nat)
  | [], s, t => [(s, t)]
  | (k, v) :: rest, s, t =>
      if k = s then (k, t) :: rest else (k, v) :: updateTimes rest s t

/-- One iteration of `processTimesRequests` on a dequeued
`timesRequest`: increment the subdomain's count (starting at 1) and
answer on the request's channel.  Returns the updated map and the
answered count. -/
def processTimesStep (m : List (String × Nat)) (sub : String) :
    List (String × Nat) × Nat :=
  match lookupTimes m sub with
  | some v => (updateTimes m sub (v + 1), v + 1)
  | none => (updateTimes m sub 1, 1)

/-- Runs the counter loop over a queue of `timesRequest` subdomain
strings, returning the count answered to each request in order. -/
def processTimesRun (m : List (String × Nat)) : List String → List Nat
  | [] => []
  | sub :: rest =>
      (processTimesStep m sub).2 :: processTimesRun (processTimesStep m sub).1 rest

/-- The counts answered to the requests for subdomain `s` within a run
of the counter loop over `reqs`, in order. -/
def responsesFor (s : String) (reqs : List String) : List Nat :=
  (reqs.zip (processTimesRun [] reqs)).filterMap
    (fun p => if p.1 = s then some p.2 else none)

/-- A placeholder request used as the `getD` default when indexing
request sequences (never reachable under the stated bounds). -/
def dummyReq : DNSRequest := ⟨"", "", [], "", ""⟩

/-- The trust class of a request, as selected by `newNameEvent`:
`TrustedTag(req.Tag)`. -/
def trustClass (req : DNSRequest) : Bool := TrustedTag req.Tag

/-- The dedup filter contents for a trust class. -/
def classFilter (ns : NameServiceState) (trusted : Bool) : List String :=
  if trusted then ns.trustedNameFilter.elems else ns.otherNameFilter.elems

/-! ## Claim theorems -/

/-- Claim C1, counterexample: for input name `"_tcp.example.com"` with
root domain `"example.com"` the code does promote a subdomain — the SRV
guard inspects `labels[1]`, which here is `"example"`, so the candidate
`"example.com"` is published — refuting the claim's second example that
no subdomain is promoted. -/
theorem checkSubdomain_tcp_promotes :
    ¬ ((checkSubdomain none ⟨"_tcp.example.com", "example.com", [], "dns", "s"⟩).1
        = none) := by
  decide

/-- Claim C1 (amended): `checkSubdomain` on `"www.foo.example.com"` with
root `"example.com"` promotes `"foo.example.com"`; on
`"_tcp.example.com"` with root `"example.com"` it promotes
`"example.com"` (the SRV guard looks at the second label, which is
`"example"`); on `"a.b"` with root `"example.com"` (too short) nothing
is promoted; and on `"a._tcp.example.com"` (second label `"_tcp"`)
nothing is promoted. -/
theorem checkSubdomain_examples :
    (checkSubdomain none ⟨"www.foo.example.com", "example.com", [], "dns", "s"⟩).1
      = some ⟨"foo.example.com", "example.com", [], "dns", "s"⟩
    ∧ (checkSubdomain none ⟨"_tcp.example.com", "example.com", [], "dns", "s"⟩).1
      = some ⟨"example.com", "example.com", [], "dns", "s"⟩
    ∧ (checkSubdomain none ⟨"a.b", "example.com", [], "dns", "s"⟩).1 = none
    ∧ (checkSubdomain none ⟨"a._tcp.example.com", "example.com", [], "dns", "s"⟩).1
      = none := by
  refine ⟨by decide, by decide, by decide, by decide⟩

/-- Claim C6 (code bug): `newNameEvent` mutates the shared request
object it receives — the struct behind the caller's pointer has its
`Name` lowercased (and wildcard-stripped) and its `Domain` lowercased
after the callback returns, so the request's fields are not preserved. -/
theorem newNameEvent_mutates_request :
    (newNameEvent NewNameServiceState
        (some ⟨"WWW.Example.COM", "Example.com", [], "scrape", "src"⟩)).2.1
      = some ⟨"www.example.com", "example.com", [], "scrape", "src"⟩
    ∧ ("www.example.com" : String) ≠ "WWW.Example.COM" := by
  refine ⟨by decide, by decide⟩

/-- Claim C7 (code bug): `Subscribe` is not a crash-free defensive
no-op for every non-invocable callback — with a non-empty topic and a
nil callback, `reflect.TypeOf(fn).Kind()` panics on the nil
`reflect.Type` (there is no nil guard), so the call does not return
normally.  The neighbouring defensive behaviours do hold: an empty
topic short-circuits before reflection (even for a nil callback), a
non-nil non-function callback is a silent no-op leaving the bus
unchanged, and `Publish` with an empty topic is a silent no-op leaving
the queue unchanged. -/
theorem subscribe_nil_callback_panics :
    Subscribe NewEventBus NewNameTopic GoValue.nilValue
      = .error "invalid memory address or nil pointer dereference"
    ∧ Subscribe NewEventBus "" GoValue.nilValue = .ok NewEventBus
    ∧ Subscribe NewEventBus NewNameTopic (GoValue.nonFunc 3) = .ok NewEventBus
    ∧ Publish NewEventBus "" [1, 2] = NewEventBus := by
  refine ⟨rfl, rfl, rfl, rfl⟩

/-- Claim C10: `Stop` is not idempotent — on a bus whose `done` channel
is still open the first `Stop` closes it (and the dispatch loop's next
`select` returns), while a second `Stop` on the resulting bus panics
with Go's "close of closed channel". -/
theorem stop_not_idempotent (eb : EventBus) (h : eb.doneClosed = false) :
    Stop eb = .ok ⟨eb.topics, eb.queue, true⟩
    ∧ ∀ eb', Stop eb = .ok eb' →
        busLoopReturns eb' = true
        ∧ Stop eb' = .error "close of closed channel" := by
  have hok : Stop eb = .ok ⟨eb.topics, eb.queue, true⟩ := by
    unfold Stop
    rw [if_neg (by simp [h])]
  refine ⟨hok, ?_⟩
  intro eb' heq
  rw [hok] at heq
  cases heq
  exact ⟨rfl, by unfold Stop; rw [if_pos rfl]⟩

/-- Claim C10 witness: stopping a freshly created bus succeeds, and
stopping it again panics. -/
theorem stop_not_idempotent_witness :
    Stop NewEventBus = .ok ⟨[], [], true⟩
    ∧ Stop (⟨[], [], true⟩ : EventBus) = .error "close of closed channel" :=
  ⟨(stop_not_idempotent NewEventBus rfl).1,
   ((stop_not_idempotent NewEventBus rfl).2 ⟨[], [], true⟩
      (stop_not_idempotent NewEventBus rfl).1).2⟩

/-- The number of invocations of callback `cb` in a dispatched
invocation list. -/
def countCb (cb : Nat) : List (Nat × List Nat) → Nat
  | [] => 0
  | (c, _) :: rest => (if c = cb then 1 else 0) + countCb cb rest

theorem countCb_map (cb : Nat) (a : List Nat) (cbs : List Nat) :
    countCb cb (cbs.map (fun c => (c, a))) = cbs.count cb := by
  induction cbs with
  | nil => simp [countCb]
  | cons x rest ih =>
      simp only [List.map_cons, countCb, ih, List.count_cons]
      by_cases h : x = cb
      · simp [h, Nat.add_comm]
      · simp [h, Ne.symm h]

theorem countCb_dispatch (topics : List (String × List Nat)) (p : PubReq)
    (cb : Nat) :
    countCb cb (dispatchPub topics p) = (subscribersAt topics p.Topic).count cb := by
  unfold dispatchPub subscribersAt
  cases h : lookupTopic topics p.Topic with
  | none => simp [countCb]
  | some cbs => simp [countCb_map]

theorem lookupTopic_insertCb_self (ts : List (String × List Nat))
    (t : String) (k : Nat) :
    lookupTopic (insertCb ts t k) t = some ((lookupTopic ts t).getD [] ++ [k]) := by
  induction ts with
  | nil => simp [insertCb, lookupTopic]
  | cons p rest ih =>
      obtain ⟨t', cbs⟩ := p
      by_cases h : t' = t
      · simp [insertCb, lookupTopic, h]
      · simp [insertCb, lookupTopic, h, ih]

theorem subscribersAt_insertCb (ts : List (String × List Nat))
    (t : String) (k : Nat) :
    subscribersAt (insertCb ts t k) t = subscribersAt ts t ++ [k] := by
  unfold subscribersAt
  rw [lookupTopic_insertCb_self]
  rfl

theorem subscribe_ok_topics (eb : EventBus) (t : String) (k : Nat)
    (h : t ≠ "") :
    Subscribe eb t (GoValue.func k)
      = .ok ⟨insertCb eb.topics t k, eb.queue, eb.doneClosed⟩ := by
  unfold Subscribe
  rw [if_neg h]

/-- Claim C2: for every dequeued publish, the dispatch loop snapshots
the topic's subscriber list and `executeCallbacks` invokes each
registration in the snapshot exactly once with exactly the published
argument list: the number of invocations of a callback equals its
multiplicity in the snapshot; every invocation carries the published
arguments; a callback not in the snapshot at dispatch (e.g. subscribed
only afterwards) is never invoked; and subscribing the same (function)
callback value succeeds and appends it, so doing so twice more yields
exactly two more invocations per publish. -/
theorem bus_dispatch_exact_invocations (topics : List (String × List Nat))
    (p : PubReq) (cb : Nat) :
    countCb cb (dispatchPub topics p) = (subscribersAt topics p.Topic).count cb
    ∧ (∀ inv ∈ dispatchPub topics p, inv.2 = p.Args)
    ∧ (cb ∉ subscribersAt topics p.Topic → countCb cb (dispatchPub topics p) = 0)
    ∧ (∀ eb : EventBus, eb.topics = topics → p.Topic ≠ "" →
        Subscribe eb p.Topic (GoValue.func cb)
          = .ok ⟨insertCb topics p.Topic cb, eb.queue, eb.doneClosed⟩
        ∧ countCb cb (dispatchPub
            (insertCb (insertCb topics p.Topic cb) p.Topic cb) p)
          = countCb cb (dispatchPub topics p) + 2) := by
  refine ⟨countCb_dispatch topics p cb, ?_, ?_, ?_⟩
  · intro inv hmem
    unfold dispatchPub at hmem
    cases h : lookupTopic topics p.Topic with
    | none => rw [h] at hmem; simp at hmem
    | some cbs =>
        rw [h] at hmem
        simp only [List.mem_map] at hmem
        obtain ⟨c, _, rfl⟩ := hmem
        rfl
  · intro h
    rw [countCb_dispatch topics p cb]
    exact List.count_eq_zero.mpr h
  · intro eb hebt ht
    refine ⟨by rw [← hebt]; exact subscribe_ok_topics eb p.Topic cb ht, ?_⟩
    rw [countCb_dispatch, countCb_dispatch, subscribersAt_insertCb,
      subscribersAt_insertCb, List.count_append, List.count_append]
    simp

/-- Claim C2 witness: on a bus with callback 5 subscribed twice to topic
`"t"`, a publish on `"t"` invokes 5 twice, callback 7 (absent at
dispatch) is never invoked, subscribing 5 again succeeds and appends it,
and two further subscriptions of 5 raise its invocation count to 4. -/
theorem bus_dispatch_exact_invocations_witness :
    countCb 5 (dispatchPub [("t", [5, 5])] ⟨"t", [9]⟩) = 2
    ∧ countCb 7 (dispatchPub [("t", [5, 5])] ⟨"t", [9]⟩) = 0
    ∧ Subscribe (⟨[("t", [5, 5])], [], false⟩ : EventBus) "t" (GoValue.func 5)
      = .ok ⟨insertCb [("t", [5, 5])] "t" 5, [], false⟩
    ∧ countCb 5 (dispatchPub (insertCb (insertCb [("t", [5, 5])] "t" 5) "t" 5)
        ⟨"t", [9]⟩) = 4 := by
  refine ⟨?_, ?_, ?_, ?_⟩
  · rw [(bus_dispatch_exact_invocations [("t", [5, 5])] ⟨"t", [9]⟩ 5).1]
    decide
  · exact (bus_dispatch_exact_invocations [("t", [5, 5])] ⟨"t", [9]⟩ 7).2.2.1
      (by decide)
  · exact ((bus_dispatch_exact_invocations [("t", [5, 5])] ⟨"t", [9]⟩ 5).2.2.2
      ⟨[("t", [5, 5])], [], false⟩ rfl (by decide)).1
  · rw [((bus_dispatch_exact_invocations [("t", [5, 5])] ⟨"t", [9]⟩ 5).2.2.2
      ⟨[("t", [5, 5])], [], false⟩ rfl (by decide)).2]
    decide

/-- Claim C5: `performRequest` branches exactly on the configured mode.
In passive mode, a name not yet in the global output filter that passes
the subdomain-syntax check is published as exactly one `Output` record
on the output topic; otherwise nothing is published; in every passive
case all publishes are on the output topic (never the resolve topic).
In active mode the request itself is republished on the resolve topic,
nothing else is published, and the filter state is unchanged. -/
theorem performRequest_mode_branches (passive : Bool)
    (sanity : String → Bool) (filter : StringFilter) (req : DNSRequest) :
    (passive = true →
      (req.Name ∉ filter.elems → sanity req.Name = true →
        (performRequest true sanity filter req).2
          = [(OutputTopic, .out ⟨0, req.Name, req.Domain, [], req.Tag, req.Source⟩)])
      ∧ (req.Name ∈ filter.elems ∨ sanity req.Name = false →
        (performRequest true sanity filter req).2 = [])
      ∧ (∀ m ∈ (performRequest true sanity filter req).2, m.1 = OutputTopic))
    ∧ (passive = false →
        performRequest false sanity filter req
          = (filter, [(ResolveNameTopic, .dns req)])) := by
  constructor
  · intro _
    have hdup : (filter.Duplicate req.Name).1 = memB req.Name filter.elems := rfl
    refine ⟨?_, ?_, ?_⟩
    · intro hmem hs
      unfold performRequest
      rw [if_pos rfl, if_pos]
      simp only [hdup, hs, Bool.and_true, Bool.not_eq_true']
      exact (Bool.not_eq_true _).mp (fun hc => hmem (memB_iff.mp hc))
    · intro hcase
      unfold performRequest
      rw [if_pos rfl, if_neg]
      simp only [hdup, Bool.and_eq_true, Bool.not_eq_true']
      rintro ⟨hm, hs⟩
      rcases hcase with hmem | hsf
      · exact absurd hm (by simp [memB_iff.mpr hmem])
      · rw [hsf] at hs; exact Bool.false_ne_true hs
    · intro m hm
      unfold performRequest at hm
      rw [if_pos rfl] at hm
      by_cases hc : (!(StringFilter.Duplicate filter req.Name).1 && sanity req.Name) = true
      · rw [if_pos hc] at hm
        simp only [List.mem_singleton] at hm
        rw [hm]
      · rw [if_neg hc] at hm
        simp at hm
  · intro _
    unfold performRequest
    rw [if_neg (by simp)]

/-- Claim C5 witness: a fresh passive NameService publishes exactly one
`Output` for an unseen name passing the syntax check, and in active mode
the same request goes to the resolve topic with the filter untouched. -/
theorem performRequest_mode_branches_witness :
    (performRequest true (fun _ => true) NewStringFilter
        ⟨"x.example.com", "example.com", [], "scrape", "s"⟩).2
      = [(OutputTopic,
          .out ⟨0, "x.example.com", "example.com", [], "scrape", "s"⟩)]
    ∧ performRequest false (fun _ => true) NewStringFilter
        ⟨"x.example.com", "example.com", [], "scrape", "s"⟩
      = (NewStringFilter,
         [(ResolveNameTopic, .dns ⟨"x.example.com", "example.com", [], "scrape", "s"⟩)]) :=
  ⟨((performRequest_mode_branches true (fun _ => true) NewStringFilter
      ⟨"x.example.com", "example.com", [], "scrape", "s"⟩).1 rfl).1
      (by decide) rfl,
   (performRequest_mode_branches false (fun _ => true) NewStringFilter
      ⟨"x.example.com", "example.com", [], "scrape", "s"⟩).2 rfl⟩

/-- Claim C9: every record published by `performRequest` in passive mode
is an `Output` on the output topic that copies exactly `Name`, `Domain`,
`Tag` and `Source` from the triggering request, with the zero `time.Time`
as `Timestamp` and no `Addresses`. -/
theorem passive_output_fields (sanity : String → Bool)
    (filter : StringFilter) (req : DNSRequest) (t : String) (msg : BusMsg)
    (h : (t, msg) ∈ (performRequest true sanity filter req).2) :
    t = OutputTopic
    ∧ msg = .out ⟨0, req.Name, req.Domain, [], req.Tag, req.Source⟩ := by
  unfold performRequest at h
  rw [if_pos rfl] at h
  by_cases hc : (!(StringFilter.Duplicate filter req.Name).1 && sanity req.Name) = true
  · rw [if_pos hc] at h
    simp only [List.mem_singleton, Prod.mk.injEq] at h
    exact ⟨h.1, h.2⟩
  · rw [if_neg hc] at h
    simp at h

/-- Claim C9 witness: the one `Output` published for a concrete passive
request has zero timestamp, empty addresses, and the request's fields. -/
theorem passive_output_fields_witness :
    ("amass:output" : String) = OutputTopic
    ∧ (BusMsg.out ⟨0, "x.example.com", "example.com", [], "scrape", "s"⟩)
      = .out ⟨0, "x.example.com", "example.com", [], "scrape", "s"⟩ :=
  passive_output_fields (fun _ => true) NewStringFilter
    ⟨"x.example.com", "example.com", [], "scrape", "s"⟩ "amass:output"
    (.out ⟨0, "x.example.com", "example.com", [], "scrape", "s"⟩)
    (by decide)

/-- Claim C8: with no graph collaborator registered (`ns.graph` nil),
`checkSubdomain` never makes an alias (CNAME) query, and every resolved
name that passes the label-count checks and whose second label is not an
SRV service prefix is promoted: the candidate subdomain (the labels from
the second onwards) is published on the new-subdomain topic. -/
theorem graph_nil_skips_alias_check (req : DNSRequest) :
    (checkSubdomain none req).2 = false
    ∧ (¬ (splitDots req.Name).length < 2 →
       ¬ (splitDots req.Name).length - 1 < (splitDots req.Domain).length →
       (splitDots req.Name).getD 1 "" ≠ "_tcp" →
       (splitDots req.Name).getD 1 "" ≠ "_udp" →
       (splitDots req.Name).getD 1 "" ≠ "_tls" →
       (checkSubdomain none req).1
         = some ⟨joinDots ((splitDots req.Name).drop 1), req.Domain, [],
             req.Tag, req.Source⟩) := by
  constructor
  · simp only [checkSubdomain]
    split_ifs <;> rfl
  · intro h1 h2 htcp hudp htls
    simp only [checkSubdomain]
    rw [if_neg h1, if_neg h2, if_neg (by push_neg; exact ⟨htcp, hudp, htls⟩)]

/-- Claim C8 witness: with no graph registered, a concrete resolved name
passing all label checks is promoted with no alias query made. -/
theorem graph_nil_skips_alias_check_witness :
    (checkSubdomain none ⟨"www.foo.example.com", "example.com", [], "dns", "s"⟩).2
      = false
    ∧ (checkSubdomain none ⟨"www.foo.example.com", "example.com", [], "dns", "s"⟩).1
      = some ⟨joinDots ((splitDots "www.foo.example.com").drop 1), "example.com",
          [], "dns", "s"⟩ :=
  ⟨(graph_nil_skips_alias_check
      ⟨"www.foo.example.com", "example.com", [], "dns", "s"⟩).1,
   (graph_nil_skips_alias_check
      ⟨"www.foo.example.com", "example.com", [], "dns", "s"⟩).2
     (by decide) (by decide) (by decide) (by decide) (by decide)⟩

/-- The count currently stored for a subdomain (0 when absent). -/
def timesVal (m : List (String × Nat)) (s : String) : Nat :=
  (lookupTimes m s).getD 0

theorem lookupTimes_updateTimes_self (m : List (String × Nat)) (s : String)
    (t : Nat) : lookupTimes (updateTimes m s t) s = some t := by
  induction m with
  | nil => simp [updateTimes, lookupTimes]
  | cons p rest ih =>
      obtain ⟨k, v⟩ := p
      by_cases h : k = s
      · simp [updateTimes, lookupTimes, h]
      · simp [updateTimes, lookupTimes, h, ih]

theorem lookupTimes_updateTimes_other (m : List (String × Nat))
    (s k : String) (t : Nat) (h : k ≠ s) :
    lookupTimes (updateTimes m s t) k = lookupTimes m k := by
  induction m with
  | nil => simp [updateTimes, lookupTimes, Ne.symm h]
  | cons p rest ih =>
      obtain ⟨k', v⟩ := p
      by_cases h' : k' = s
      · subst h'
        simp [updateTimes, lookupTimes, Ne.symm h]
      · simp [updateTimes, lookupTimes, h', ih]

theorem processTimesStep_snd (m : List (String × Nat)) (s : String) :
    (processTimesStep m s).2 = timesVal m s + 1 := by
  unfold processTimesStep timesVal
  cases lookupTimes m s <;> simp

theorem processTimesStep_timesVal_self (m : List (String × Nat)) (s : String) :
    timesVal (processTimesStep m s).1 s = timesVal m s + 1 := by
  unfold processTimesStep timesVal
  cases lookupTimes m s <;> simp [lookupTimes_updateTimes_self]

theorem processTimesStep_timesVal_other (m : List (String × Nat))
    (s k : String) (h : k ≠ s) :
    timesVal (processTimesStep m s).1 k = timesVal m k := by
  unfold processTimesStep timesVal
  cases lookupTimes m s <;> simp [lookupTimes_updateTimes_other _ _ _ _ h]

theorem processTimesRun_filter (reqs : List String) (m : List (String × Nat))
    (s : String) :
    (reqs.zip (processTimesRun m reqs)).filterMap
        (fun p => if p.1 = s then some p.2 else none)
      = (List.range (reqs.count s)).map (fun t => timesVal m s + t + 1) := by
  induction reqs generalizing m with
  | nil => simp [processTimesRun]
  | cons r rest ih =>
      by_cases h : r = s
      · subst h
        have hstep : (r :: rest).zip (processTimesRun m (r :: rest))
            = (r, (processTimesStep m r).2)
              :: rest.zip (processTimesRun (processTimesStep m r).1 rest) := rfl
        have hfm : List.filterMap
              (fun p : String × Nat => if p.1 = r then some p.2 else none)
              ((r :: rest).zip (processTimesRun m (r :: rest)))
            = (processTimesStep m r).2 :: List.filterMap
                (fun p : String × Nat => if p.1 = r then some p.2 else none)
                (rest.zip (processTimesRun (processTimesStep m r).1 rest)) := by
          rw [hstep]
          simp [List.filterMap_cons]
        rw [hfm, ih (processTimesStep m r).1, List.count_cons_self,
          List.range_succ_eq_map, List.map_cons, List.map_map,
          processTimesStep_snd]
        refine congrArg₂ List.cons (by simp) (List.map_congr_left ?_)
        intro t _
        simp only [Function.comp_apply, processTimesStep_timesVal_self]
        omega
      · simp only [processTimesRun, List.zip_cons_cons, List.filterMap_cons,
          if_neg h]
        rw [ih (processTimesStep m r).1, List.count_cons_of_ne (by
          exact fun hc => h hc.symm)]
        refine List.map_congr_left ?_
        intro t _
        rw [processTimesStep_timesVal_other _ _ _ (Ne.symm h)]

/-- Claim C4: the per-subdomain observation counter is strictly
monotonic and gap-free — over any queue of counter requests, the counts
answered to the requests for a given subdomain string `s` are exactly
`1, 2, ..., N` in order (`N` being the number of requests for `s`),
regardless of which counts other subdomain strings receive in between. -/
theorem observation_counter_gap_free (reqs : List String) (s : String) :
    responsesFor s reqs = (List.range (reqs.count s)).map (fun t => t + 1) := by
  unfold responsesFor
  rw [processTimesRun_filter]
  refine List.map_congr_left ?_
  intro t _
  simp [timesVal, lookupTimes]

theorem memB_false_iff {s : String} {l : List String} :
    memB s l = false ↔ s ∉ l := by
  rw [← Bool.not_eq_true, memB_iff]

theorem newNameEvent_fwd (ns : NameServiceState) (r : DNSRequest)
    (hn : r.Name ≠ "") (hd : r.Domain ≠ "") :
    (newNameEvent ns (some r)).2.2
      = !(memB (normName r) (classFilter ns (trustClass r))) := by
  simp only [newNameEvent]
  rw [if_neg (by simp [hn, hd])]
  by_cases h : TrustedTag r.Tag = true
  · simp [h, StringFilter.Duplicate, classFilter, trustClass]
  · rw [Bool.not_eq_true] at h
    simp [h, StringFilter.Duplicate, classFilter, trustClass]

theorem newNameEvent_classFilter (ns : NameServiceState) (r : DNSRequest)
    (hn : r.Name ≠ "") (hd : r.Domain ≠ "") (c : Bool) :
    classFilter (newNameEvent ns (some r)).1 c
      = if trustClass r = c then normName r :: classFilter ns c
        else classFilter ns c := by
  simp only [newNameEvent]
  rw [if_neg (by simp [hn, hd])]
  by_cases h : TrustedTag r.Tag = true
  · cases c <;>
      simp [h, StringFilter.Duplicate, classFilter, trustClass]
  · rw [Bool.not_eq_true] at h
    cases c <;>
      simp [h, StringFilter.Duplicate, classFilter, trustClass]

theorem runNewNames_flag (reqs : List DNSRequest) :
    ∀ (ns : NameServiceState) (i : Nat),
      (∀ r ∈ reqs, r.Name ≠ "" ∧ r.Domain ≠ "") → i < reqs.length →
      ((runNewNames ns reqs).getD i false = true ↔
        (normName (reqs.getD i dummyReq)
            ∉ classFilter ns (trustClass (reqs.getD i dummyReq))
         ∧ ∀ j, j < i →
             ¬ (normName (reqs.getD j dummyReq) = normName (reqs.getD i dummyReq)
                ∧ trustClass (reqs.getD j dummyReq)
                  = trustClass (reqs.getD i dummyReq)))) := by
  induction reqs with
  | nil =>
      intro ns i hv hi
      cases hi
  | cons r rest ih =>
      intro ns i hv hi
      have hr := hv r (List.mem_cons_self r rest)
      have hvrest : ∀ x ∈ rest, x.Name ≠ "" ∧ x.Domain ≠ "" :=
        fun x hx => hv x (List.mem_cons_of_mem r hx)
      cases i with
      | zero =>
          show (newNameEvent ns (some r)).2.2 = true ↔ _
          rw [newNameEvent_fwd ns r hr.1 hr.2]
          constructor
          · intro hx
            exact ⟨memB_false_iff.mp (by simpa using hx),
              fun j hj => absurd hj (Nat.not_lt_zero j)⟩
          · intro hx
            simpa using memB_false_iff.mpr hx.1
      | succ i' =>
          have hlen : i' < rest.length := by
            simp only [List.length_cons] at hi
            omega
          simp only [runNewNames, List.getD_cons_succ]
          rw [ih (newNameEvent ns (some r)).1 i' hvrest hlen,
            newNameEvent_classFilter ns r hr.1 hr.2]
          by_cases hc : trustClass r = trustClass (rest.getD i' dummyReq)
          · rw [if_pos hc]
            constructor
            · rintro ⟨hnot, hPrest⟩
              refine ⟨fun hm => hnot (List.mem_cons_of_mem _ hm), ?_⟩
              intro j hj
              cases j with
              | zero =>
                  rintro ⟨he, _⟩
                  exact hnot (by rw [← he]; exact List.mem_cons_self _ _)
              | succ j' => exact hPrest j' (Nat.lt_of_succ_lt_succ hj)
            · rintro ⟨hnotF, hall⟩
              refine ⟨?_, fun j' hj' => hall (j' + 1) (Nat.succ_lt_succ hj')⟩
              intro hm
              rcases List.mem_cons.mp hm with he | hm'
              · exact hall 0 (Nat.succ_pos i') ⟨he.symm, hc⟩
              · exact hnotF hm'
          · rw [if_neg hc]
            constructor
            · rintro ⟨hnotF, hPrest⟩
              refine ⟨hnotF, ?_⟩
              intro j hj
              cases j with
              | zero =>
                  rintro ⟨_, hcc⟩
                  exact hc hcc
              | succ j' => exact hPrest j' (Nat.lt_of_succ_lt_succ hj)
            · rintro ⟨hnotF, hall⟩
              exact ⟨hnotF, fun j' hj' => hall (j' + 1) (Nat.succ_lt_succ hj')⟩

/-- Claim C3, counterexample: duplicate suppression is keyed by the
normalized (lowercased, wildcard-stripped) name, not the raw name
string: after `"A.example.com"` tagged `"cert"` has been processed, the
first request carrying the name `"a.example.com"` with the trusted tag
`"cert"` is dropped, not forwarded as the claim states. -/
theorem newName_dedup_counterexample :
    (runNewNames NewNameServiceState
        [⟨"A.example.com", "example.com", [], "cert", "s"⟩,
         ⟨"a.example.com", "example.com", [], "cert", "s"⟩]).getD 1 false
      = false := by
  decide

/-- Claim C3 (amended): duplicate suppression in `newNameEvent` is
idempotent and trust-class-scoped over normalized names: for any
sequence of requests with nonempty name and domain, a request is
forwarded iff no earlier request had the same (normalized name, trust
class) pair — so the first request per pair (in particular the first
trusted and the first untrusted occurrence of a name) is forwarded and
every later request with the same pair is dropped. -/
theorem newName_dedup_trust_scoped (reqs : List DNSRequest)
    (hv : ∀ r ∈ reqs, r.Name ≠ "" ∧ r.Domain ≠ "") (i : Nat)
    (hi : i < reqs.length) :
    (runNewNames NewNameServiceState reqs).getD i false = true ↔
      ∀ j, j < i →
        ¬ (normName (reqs.getD j dummyReq) = normName (reqs.getD i dummyReq)
           ∧ trustClass (reqs.getD j dummyReq)
             = trustClass (reqs.getD i dummyReq)) := by
  rw [runNewNames_flag reqs NewNameServiceState i hv hi]
  constructor
  · exact fun h => h.2
  · intro h
    refine ⟨?_, h⟩
    cases hc : trustClass (reqs.getD i dummyReq) <;>
      simp [classFilter, NewNameServiceState, NewStringFilter]

/-- Claim C3 witness: in the spec's scenario — `"a.example.com"` tagged
`"cert"`, then tagged `"scrape"`, then tagged `"cert"` again — the
second request (first of the untrusted class) is forwarded and the third
(a repeat of the trusted pair) is dropped. -/
theorem newName_dedup_trust_scoped_witness :
    (runNewNames NewNameServiceState
        [⟨"a.example.com", "example.com", [], "cert", "s"⟩,
         ⟨"a.example.com", "example.com", [], "scrape", "s"⟩,
         ⟨"a.example.com", "example.com", [], "cert", "s"⟩]).getD 1 false
      = true :=
  (newName_dedup_trust_scoped
      [⟨"a.example.com", "example.com", [], "cert", "s"⟩,
       ⟨"a.example.com", "example.com", [], "scrape", "s"⟩,
       ⟨"a.example.com", "example.com", [], "cert", "s"⟩]
      (by decide) 1 (by decide)).mpr
    (by
      intro j hj
      have hj0 : j = 0 := by omega
      subst hj0
      decide)

end Amass
